import Mathlib

set_option maxHeartbeats 1000000

/-!
Shallow embedding of the ImHex builtin pattern drawer
(`src/plugins/builtin/source/ui/pattern_drawer.cpp`).

The drawer renders a tree of pattern nodes as table rows.  We model the
observable output of one draw call as a list of `Row` events and the
drawer's only piece of mutable state — the per-node revealed-chunk map
`m_displayEnd` — as an association list from node identity to count.
Node identity (the C++ code keys the map by `&pattern`) is modelled by a
numeric `id` carried in each node's attributes; distinct live nodes have
distinct addresses, so theorems that need it assume the relevant id does
not reoccur in a subtree.

ImGui interactive state that the drawer merely consults (whether a tree
node is open, whether a chunk is expanded, whether the placeholder was
double-clicked, the hex-editor selection) is supplied by an `Env` record.
-/

namespace PatternDrawer

/-- A byte region: start address and size, as used by the hex editor
selection (`Region` from the ImHex API headers, which are outside this
repository's sources). -/
structure Region where
  address : Nat
  size : Nat
deriving DecidableEq, Repr

/-- Modelled from the spec: `Region::overlaps` lives in the ImHex API
headers, not in this repository's sources.  Per the spec (§4.5) it is the
standard half-open interval overlap test on `[address, address+size)`,
and an empty range never overlaps anything. -/
def Region.overlaps (a b : Region) : Bool :=
  decide (max a.address b.address < min (a.address + a.size) (b.address + b.size))

/-- C++ `isPatternSelected` (pattern_drawer.cpp lines 38-44): the current
selection is queried from the hex editor; no selection means not
selected, otherwise test `Region{address, size}.overlaps(*currSelection)`.
The external selection provider is modelled as the `selection` argument. -/
def isPatternSelected (selection : Option Region) (address size : Nat) : Bool :=
  match selection with
  | none => false
  | some curr => Region.overlaps ⟨address, size⟩ curr

/-- C++ `DisplayEndDefault` (line 33). -/
def DisplayEndDefault : Nat := 50

/-- C++ `DisplayEndStep` (line 34). -/
def DisplayEndStep : Nat := 50

/-- `ChunkSize` is declared in the drawer's header file (not in src);
the spec (§4.3) fixes the chunk size at 50. -/
def ChunkSize : Nat := 50

/-- The attributes every pattern node exposes to the drawer: a stable
identity (modelling the C++ node address used as map key), byte offset,
byte size, display name, type name, value, color, and the hidden /
sealed / inlined flags. -/
structure Attrs where
  id : Nat
  offset : Nat
  size : Nat
  displayName : String
  typeName : String
  value : Nat
  color : Nat
  hidden : Bool
  sealed : Bool
  inlined : Bool
deriving DecidableEq, Repr

/-- The scalar pattern kinds whose `visit` overloads all consist of a
single `createDefaultEntry(pattern)` call (boolean, character, float,
signed, unsigned, wide-character; lines 230-236, 253-255, 288-290,
357-363). -/
inductive ScalarKind where
  | boolean
  | character
  | float
  | signedInt
  | unsignedInt
  | wideCharacter
deriving DecidableEq, Repr

/-- The pattern-node tree, one constructor per distinct `visit` code
path of the drawer.  Composite kinds hold their ordered child lists;
a pointer holds its single pointee. -/
inductive Pattern where
  | scalar (kind : ScalarKind) (attrs : Attrs)
  | enum (attrs : Attrs)
  | padding (attrs : Attrs)
  | string (attrs : Attrs)
  | wideString (attrs : Attrs)
  | bitfieldField (attrs : Attrs) (bitOffset bitSize : Nat)
  | bitfield (attrs : Attrs) (fields : List Pattern)
  | struct (attrs : Attrs) (members : List Pattern)
  | union (attrs : Attrs) (members : List Pattern)
  | arrayDynamic (attrs : Attrs) (entries : List Pattern)
  | arrayStatic (attrs : Attrs) (entries : List Pattern)
  | pointer (attrs : Attrs) (pointee : Pattern)
deriving Repr

/-- Attribute projection (`getOffset`, `getSize`, `isHidden`, ... in the
pattern library are uniform accessors on every node). -/
def Pattern.attrs : Pattern → Attrs
  | .scalar _ a => a
  | .enum a => a
  | .padding a => a
  | .string a => a
  | .wideString a => a
  | .bitfieldField a _ _ => a
  | .bitfield a _ => a
  | .struct a _ => a
  | .union a _ => a
  | .arrayDynamic a _ => a
  | .arrayStatic a _ => a
  | .pointer a _ => a

/-- The ImGui-owned interactive state the drawer reads during one call:
the hex-editor selection, per-node tree-open state (`ImGui::TreeNodeEx`
return value), per-chunk open state (keyed by node id and chunk start
index), and whether the reveal-more placeholder of a node is being
double-clicked this call. -/
structure Env where
  selection : Option Region
  treeOpen : Nat → Bool
  chunkOpen : Nat → Nat → Bool
  doubleClick : Nat → Bool

/-- The drawer's `m_displayEnd` map: node identity to revealed chunk
count, as an association list. -/
abbrev DrawerState := List (Nat × Nat)

/-- Association-list lookup (`m_displayEnd.find`). -/
def dLookup : DrawerState → Nat → Option Nat
  | [], _ => none
  | (k, v) :: rest, id => if k = id then some v else dLookup rest id

/-- Association-list in-place update of the first binding of `id`
(the C++ code mutates the map entry through the reference returned
by `getDisplayEnd`). -/
def dSet : DrawerState → Nat → Nat → DrawerState
  | [], _, _ => []
  | (k, v) :: rest, id, nv => if k = id then (k, nv) :: rest else (k, v) :: dSet rest id nv

/-- C++ `PatternDrawer::getDisplayEnd` (lines 465-473): return the
existing entry for the node, or emplace `DisplayEndDefault` for it. -/
def getDisplayEnd (st : DrawerState) (id : Nat) : Nat × DrawerState :=
  match dLookup st id with
  | some v => (v, st)
  | none => (DisplayEndDefault, (id, DisplayEndDefault) :: st)

/-- The revealed-chunk count a node would observe: the stored entry if
present, else the default installed on first access. -/
def lookupD (st : DrawerState) (id : Nat) : Nat :=
  (dLookup st id).getD DisplayEndDefault

/-- One table row emitted by the drawer, abstracted to the shape the
drawer itself decides (which node it belongs to, which layout routine
produced it, and whether the color-swatch column was filled). -/
inductive Row where
  | defaultEntry (id : Nat) (selected : Bool)
  | enumRow (id : Nat)
  | bitfieldFieldRow (id : Nat)
  | headerRow (id : Nat) (swatch : Bool)
  | chunkRow (id : Nat) (firstIdx lastIdx : Nat)
  | placeholderRow (id : Nat) (clicked : Bool)
deriving DecidableEq, Repr

/-- The node a row belongs to. -/
def Row.nodeId : Row → Nat
  | .defaultEntry id _ => id
  | .enumRow id => id
  | .bitfieldFieldRow id => id
  | .headerRow id _ => id
  | .chunkRow id _ _ => id
  | .placeholderRow id _ => id

/-- C++ `createTreeNode` (lines 82-92): a sealed pattern is drawn as a
flat indented label and reported closed; otherwise the ImGui tree node
state decides. -/
def createTreeNode (env : Env) (a : Attrs) : Bool :=
  if a.sealed then false else env.treeOpen a.id

/-- C++ `createDefaultEntry` (lines 145-159): the shared one-row layout
used by every plain scalar kind (leaf node, selectable, name highlighted
when the byte range overlaps the selection, color, offset, size, type,
value). -/
def createDefaultEntry (env : Env) (a : Attrs) : Row :=
  Row.defaultEntry a.id (isPatternSelected env.selection a.offset a.size)

theorem sizeOf_take_le {α : Type} [SizeOf α] (n : Nat) (l : List α) :
    sizeOf (l.take n) ≤ sizeOf l := by
  induction l generalizing n with
  | nil => cases n <;> simp [List.take]
  | cons x xs ih =>
    cases n with
    | zero =>
      simp only [List.take, List.nil.sizeOf_spec, List.cons.sizeOf_spec]
      omega
    | succ m =>
      simp only [List.take, List.cons.sizeOf_spec]
      have := ih m
      omega

theorem sizeOf_drop_le {α : Type} [SizeOf α] (n : Nat) (l : List α) :
    sizeOf (l.drop n) ≤ sizeOf l := by
  induction l generalizing n with
  | nil => cases n <;> simp [List.drop]
  | cons x xs ih =>
    cases n with
    | zero => exact Nat.le_refl _
    | succ m =>
      simp only [List.drop, List.cons.sizeOf_spec]
      have := ih m
      have hx : 0 ≤ sizeOf x := Nat.zero_le _
      omega

theorem sizeOf_drop_lt {α : Type} [SizeOf α] (n : Nat) (x : α) (xs : List α) (hn : 0 < n) :
    sizeOf ((x :: xs).drop n) < sizeOf (x :: xs) := by
  cases n with
  | zero => omega
  | succ m =>
    simp only [List.drop, List.cons.sizeOf_spec]
    have := sizeOf_drop_le m xs
    have hx : 0 < 1 + sizeOf x := by omega
    omega

mutual

/-- C++ `PatternDrawer::draw(Pattern&)` (lines 370-375): the per-node
entry point — do nothing for a hidden node, otherwise dispatch through
the visitor (`pattern.accept(*this)`). -/
def draw (env : Env) (st : DrawerState) (p : Pattern) : List Row × DrawerState :=
  if p.attrs.hidden then ([], st)
  else visit env st p
termination_by 4 * sizeOf p + 3

/-- The visitor dispatch: one case per `PatternDrawer::visit` overload
(the C++ `accept` virtual call selects the overload from the node's
dynamic kind). -/
def visit (env : Env) (st : DrawerState) (p : Pattern) : List Row × DrawerState :=
  match p with
  | .scalar _ a => ([createDefaultEntry env a], st)
  | .enum a => ([Row.enumRow a.id], st)
  | .padding _ => ([], st)
  | .string a =>
    if 0 < a.size then ([createDefaultEntry env a], st) else ([], st)
  | .wideString a =>
    if 0 < a.size then ([createDefaultEntry env a], st) else ([], st)
  | .bitfieldField a _ _ => ([Row.bitfieldFieldRow a.id], st)
  | .bitfield a fields =>
    if a.inlined then
      drawMembers env st fields
    else if createTreeNode env a then
      let res := drawMembers env st fields
      (Row.headerRow a.id true :: res.1, res.2)
    else ([Row.headerRow a.id true], st)
  | .struct a members =>
    if a.inlined then
      drawMembers env st members
    else if createTreeNode env a then
      let res := drawMembers env st members
      (Row.headerRow a.id a.sealed :: res.1, res.2)
    else ([Row.headerRow a.id a.sealed], st)
  | .union a members =>
    if a.inlined then
      drawMembers env st members
    else if createTreeNode env a then
      let res := drawMembers env st members
      (Row.headerRow a.id a.sealed :: res.1, res.2)
    else ([Row.headerRow a.id a.sealed], st)
  | .arrayDynamic a entries => drawArray env st a entries a.inlined
  | .arrayStatic a entries => drawArray env st a entries a.inlined
  | .pointer a pointee =>
    if a.inlined then
      visit env st pointee
    else if createTreeNode env a then
      let res := visit env st pointee
      (Row.headerRow a.id true :: res.1, res.2)
    else ([Row.headerRow a.id true], st)
termination_by 4 * sizeOf p + 2

/-- Drawing an ordered child collection member by member through `draw`
(the `forEachMember` / `forEachEntry` loops of the bitfield, struct and
union visits, and the top-level loop over the sorted roots). -/
def drawMembers (env : Env) (st : DrawerState) (ps : List Pattern) : List Row × DrawerState :=
  match ps with
  | [] => ([], st)
  | p :: rest =>
    let res₁ := draw env st p
    let res₂ := drawMembers env res₁.2 rest
    (res₁.1 ++ res₂.1, res₂.2)
termination_by 4 * sizeOf ps + 1

/-- C++ `PatternDrawer::drawArray` (lines 377-463): nothing for an empty
collection; otherwise the (optional) header row and, when open, the
chunked entry loop. -/
def drawArray (env : Env) (st : DrawerState) (a : Attrs) (entries : List Pattern)
    (isInlinedArr : Bool) : List Row × DrawerState :=
  if entries.isEmpty then ([], st)
  else if isInlinedArr then
    drawChunks env st a entries 0 0
  else if createTreeNode env a then
    let res := drawChunks env st a entries 0 0
    (Row.headerRow a.id a.sealed :: res.1, res.2)
  else ([Row.headerRow a.id a.sealed], st)
termination_by 4 * sizeOf entries + 3

/-- The chunk loop of `drawArray` (lines 408-458): `remaining` is the
entry suffix not yet covered, `i` the absolute index of its first entry
and `chunkCount` the number of chunks already considered.  Each
iteration either hits the revealed-chunk budget — rendering the
placeholder row, applying the double-click increment and breaking — or
renders one chunk-summary row, recursing into the chunk's entries when
the chunk's tree node is open. -/
def drawChunks (env : Env) (st : DrawerState) (a : Attrs) (remaining : List Pattern)
    (i chunkCount : Nat) : List Row × DrawerState :=
  match remaining with
  | [] => ([], st)
  | p :: rest =>
    let cc := chunkCount + 1
    let de := getDisplayEnd st a.id
    if de.1 < cc then
      let clicked := env.doubleClick a.id
      let st₂ := if clicked then dSet de.2 a.id (de.1 + DisplayEndStep) else de.2
      ([Row.placeholderRow a.id clicked], st₂)
    else
      let chunk := (p :: rest).take ChunkSize
      let row := Row.chunkRow a.id i (i + chunk.length - 1)
      let res₁ := if env.chunkOpen a.id i then drawMembers env de.2 chunk else ([], de.2)
      let res₂ := drawChunks env res₁.2 a ((p :: rest).drop ChunkSize) (i + ChunkSize) cc
      (row :: (res₁.1 ++ res₂.1), res₂.2)
termination_by 4 * sizeOf remaining + 2
decreasing_by
· have h1 := sizeOf_take_le (α := Pattern) ChunkSize (p :: rest)
  simp only [List.cons.sizeOf_spec] at h1 ⊢
  omega
· have h2 := sizeOf_drop_lt (α := Pattern) ChunkSize p rest (by simp [ChunkSize])
  simp only [List.cons.sizeOf_spec] at h2 ⊢
  omega

end

/-- Is this row a reveal-more event for node `id` (its placeholder row,
double-clicked this call)? -/
def Row.isRevealOf (id : Nat) : Row → Bool
  | .placeholderRow j clicked => j == id && clicked
  | _ => false

/-- Is this row a chunk-summary row of node `id`? -/
def Row.isChunkOf (id : Nat) : Row → Bool
  | .chunkRow j _ _ => j == id
  | _ => false

/-- Is this row the reveal-more placeholder row of node `id`? -/
def Row.isPlaceholderOf (id : Nat) : Row → Bool
  | .placeholderRow j _ => j == id
  | _ => false

mutual

/-- All node identities occurring in a subtree. -/
def Pattern.ids : Pattern → List Nat
  | .scalar _ a => [a.id]
  | .enum a => [a.id]
  | .padding a => [a.id]
  | .string a => [a.id]
  | .wideString a => [a.id]
  | .bitfieldField a _ _ => [a.id]
  | .bitfield a fields => a.id :: idsList fields
  | .struct a ms => a.id :: idsList ms
  | .union a ms => a.id :: idsList ms
  | .arrayDynamic a es => a.id :: idsList es
  | .arrayStatic a es => a.id :: idsList es
  | .pointer a q => a.id :: Pattern.ids q

/-- All node identities occurring in a forest. -/
def idsList : List Pattern → List Nat
  | [] => []
  | p :: ps => Pattern.ids p ++ idsList ps

end

theorem dLookup_dSet_self (st : DrawerState) (id v nv : Nat)
    (h : dLookup st id = some v) : dLookup (dSet st id nv) id = some nv := by
  induction st with
  | nil => simp [dLookup] at h
  | cons kv rest ih =>
    obtain ⟨k, w⟩ := kv
    by_cases hk : k = id
    · simp [dLookup, dSet, hk]
    · simp [dLookup, dSet, hk] at h ⊢
      exact ih h

theorem dLookup_dSet_ne (st : DrawerState) (j id nv : Nat) (h : j ≠ id) :
    dLookup (dSet st j nv) id = dLookup st id := by
  induction st with
  | nil => simp [dSet]
  | cons kv rest ih =>
    obtain ⟨k, w⟩ := kv
    by_cases hk : k = j
    · subst hk
      simp [dLookup, dSet, h]
    · simp [dLookup, dSet, hk]
      by_cases hki : k = id <;> simp [hki, ih]

theorem getDisplayEnd_fst (st : DrawerState) (j : Nat) :
    (getDisplayEnd st j).1 = lookupD st j := by
  unfold getDisplayEnd lookupD
  cases dLookup st j <;> simp

theorem dLookup_getDisplayEnd (st : DrawerState) (j : Nat) :
    dLookup (getDisplayEnd st j).2 j = some (lookupD st j) := by
  unfold getDisplayEnd lookupD
  cases h : dLookup st j <;> simp [dLookup, h]

theorem dLookup_getDisplayEnd_ne (st : DrawerState) (j id : Nat) (h : j ≠ id) :
    dLookup (getDisplayEnd st j).2 id = dLookup st id := by
  unfold getDisplayEnd
  cases hl : dLookup st j <;> simp [dLookup, h, hl]

theorem lookupD_getDisplayEnd (st : DrawerState) (j id : Nat) :
    lookupD (getDisplayEnd st j).2 id = lookupD st id := by
  by_cases h : j = id
  · subst h
    rw [lookupD, dLookup_getDisplayEnd]
    rfl
  · rw [lookupD, dLookup_getDisplayEnd_ne st j id h, lookupD]

/-- The disclosure-count accounting relation: after a piece of drawing
turned state `st` into `st'` emitting `rows`, every node's revealed
chunk count has grown by exactly the step times the number of
double-clicked placeholder rows the node got. -/
def RevealEq (st st' : DrawerState) (rows : List Row) : Prop :=
  ∀ id, lookupD st' id = lookupD st id + DisplayEndStep * (rows.countP (Row.isRevealOf id))

theorem RevealEq.of_nonreveal {st : DrawerState} {rows : List Row}
    (h : ∀ id, rows.countP (Row.isRevealOf id) = 0) : RevealEq st st rows := by
  intro id
  rw [h id]
  simp

theorem RevealEq.append {st st₁ st₂ : DrawerState} {r₁ r₂ : List Row}
    (h₁ : RevealEq st st₁ r₁) (h₂ : RevealEq st₁ st₂ r₂) :
    RevealEq st st₂ (r₁ ++ r₂) := by
  intro id
  rw [List.countP_append, h₂ id, h₁ id]
  ring

theorem RevealEq.cons_nonreveal {st st' : DrawerState} {rows : List Row} {r : Row}
    (hr : ∀ id, Row.isRevealOf id r = false) (h : RevealEq st st' rows) :
    RevealEq st st' (r :: rows) := by
  intro id
  rw [List.countP_cons, h id, hr id]
  simp

theorem RevealEq.getDE (st : DrawerState) (j : Nat) :
    RevealEq st (getDisplayEnd st j).2 [] := by
  intro id
  simp [lookupD_getDisplayEnd, List.countP_nil]

theorem lookupD_dSet_of_mem {st : DrawerState} {id v : Nat} (nv : Nat)
    (h : dLookup st id = some v) : lookupD (dSet st id nv) id = nv := by
  rw [lookupD, dLookup_dSet_self st id v nv h]
  rfl

theorem RevealEq.placeholder (st : DrawerState) (aid : Nat) (clicked : Bool) :
    RevealEq st
      (if clicked then
        dSet (getDisplayEnd st aid).2 aid ((getDisplayEnd st aid).1 + DisplayEndStep)
      else (getDisplayEnd st aid).2)
      [Row.placeholderRow aid clicked] := by
  intro id
  by_cases hc : clicked
  · by_cases hid : aid = id
    · subst hid
      rw [if_pos hc,
        lookupD_dSet_of_mem ((getDisplayEnd st aid).1 + DisplayEndStep) (dLookup_getDisplayEnd st aid),
        getDisplayEnd_fst]
      simp [List.countP_cons, Row.isRevealOf, hc]
    · rw [if_pos hc, lookupD,
        dLookup_dSet_ne _ aid id ((getDisplayEnd st aid).1 + DisplayEndStep) hid, ← lookupD,
        lookupD_getDisplayEnd]
      have : (aid == id) = false := by simp [hid]
      simp [List.countP_cons, Row.isRevealOf, this]
  · rw [if_neg hc, lookupD_getDisplayEnd]
    simp [List.countP_cons, Row.isRevealOf, hc]

theorem drawMembers_revealEq (env : Env) :
    ∀ st ps, RevealEq st (drawMembers env st ps).2 (drawMembers env st ps).1 := by
  apply PatternDrawer.drawMembers.induct env
    (fun st p => RevealEq st (draw env st p).2 (draw env st p).1)
    (fun st p => RevealEq st (visit env st p).2 (visit env st p).1)
    (fun st a es inl => RevealEq st (drawArray env st a es inl).2 (drawArray env st a es inl).1)
    (fun st a rem i cc => RevealEq st (drawChunks env st a rem i cc).2 (drawChunks env st a rem i cc).1)
    (fun st ps => RevealEq st (drawMembers env st ps).2 (drawMembers env st ps).1)
  case case1 =>
    intro st p h
    simp only [draw, h, if_true]
    exact RevealEq.of_nonreveal (by intro id; simp)
  case case2 =>
    intro st p h ih
    simpa only [draw, h, if_false, Bool.false_eq_true, ite_false] using ih
  case case3 =>
    intro st k a
    simp only [visit]
    exact RevealEq.of_nonreveal (by intro id; simp [Row.isRevealOf, createDefaultEntry])
  case case4 =>
    intro st a
    simp only [visit]
    exact RevealEq.of_nonreveal (by intro id; simp [Row.isRevealOf])
  case case5 =>
    intro st a
    simp only [visit]
    exact RevealEq.of_nonreveal (by intro id; simp)
  case case6 =>
    intro st a h
    simp only [visit, if_pos h]
    exact RevealEq.of_nonreveal (by intro id; simp [Row.isRevealOf, createDefaultEntry])
  case case7 =>
    intro st a h
    simp only [visit, if_neg h]
    exact RevealEq.of_nonreveal (by intro id; simp)
  case case8 =>
    intro st a h
    simp only [visit, if_pos h]
    exact RevealEq.of_nonreveal (by intro id; simp [Row.isRevealOf, createDefaultEntry])
  case case9 =>
    intro st a h
    simp only [visit, if_neg h]
    exact RevealEq.of_nonreveal (by intro id; simp)
  case case10 =>
    intro st a b₁ b₂
    simp only [visit]
    exact RevealEq.of_nonreveal (by intro id; simp [Row.isRevealOf])
  case case11 =>
    intro st a fields h ih
    simpa only [visit, h, if_true] using ih
  case case12 =>
    intro st a fields h₁ h₂ ih
    simp only [visit, h₁, h₂, Bool.false_eq_true, ite_false, ite_true]
    exact RevealEq.cons_nonreveal (by intro id; simp [Row.isRevealOf]) ih
  case case13 =>
    intro st a fields h₁ h₂
    simp only [visit, h₁, h₂, Bool.false_eq_true, ite_false]
    exact RevealEq.of_nonreveal (by intro id; simp [Row.isRevealOf])
  case case14 =>
    intro st a ms h ih
    simpa only [visit, h, if_true] using ih
  case case15 =>
    intro st a ms h₁ h₂ ih
    simp only [visit, h₁, h₂, Bool.false_eq_true, ite_false, ite_true]
    exact RevealEq.cons_nonreveal (by intro id; simp [Row.isRevealOf]) ih
  case case16 =>
    intro st a ms h₁ h₂
    simp only [visit, h₁, h₂, Bool.false_eq_true, ite_false]
    exact RevealEq.of_nonreveal (by intro id; simp [Row.isRevealOf])
  case case17 =>
    intro st a ms h ih
    simpa only [visit, h, if_true] using ih
  case case18 =>
    intro st a ms h₁ h₂ ih
    simp only [visit, h₁, h₂, Bool.false_eq_true, ite_false, ite_true]
    exact RevealEq.cons_nonreveal (by intro id; simp [Row.isRevealOf]) ih
  case case19 =>
    intro st a ms h₁ h₂
    simp only [visit, h₁, h₂, Bool.false_eq_true, ite_false]
    exact RevealEq.of_nonreveal (by intro id; simp [Row.isRevealOf])
  case case20 =>
    intro st a es ih
    simpa only [visit] using ih
  case case21 =>
    intro st a es ih
    simpa only [visit] using ih
  case case22 =>
    intro st a q h ih
    simpa only [visit, h, if_true] using ih
  case case23 =>
    intro st a q h₁ h₂ ih
    simp only [visit, h₁, h₂, Bool.false_eq_true, ite_false, ite_true]
    exact RevealEq.cons_nonreveal (by intro id; simp [Row.isRevealOf]) ih
  case case24 =>
    intro st a q h₁ h₂
    simp only [visit, h₁, h₂, Bool.false_eq_true, ite_false]
    exact RevealEq.of_nonreveal (by intro id; simp [Row.isRevealOf])
  case case25 =>
    intro st a es inl h
    simp only [drawArray, h, if_true]
    exact RevealEq.of_nonreveal (by intro id; simp)
  case case26 =>
    intro st a es h ih
    simpa only [drawArray, h, Bool.false_eq_true, ite_false, ite_true] using ih
  case case27 =>
    intro st a es inl h₁ h₂ h₃ ih
    simp only [drawArray, h₁, h₂, h₃, Bool.false_eq_true, ite_false, ite_true]
    exact RevealEq.cons_nonreveal (by intro id; simp [Row.isRevealOf]) ih
  case case28 =>
    intro st a es inl h₁ h₂ h₃
    simp only [drawArray, h₁, h₂, h₃, Bool.false_eq_true, ite_false]
    exact RevealEq.of_nonreveal (by intro id; simp [Row.isRevealOf])
  case case29 =>
    intro st a i cc
    simp only [drawChunks]
    exact RevealEq.of_nonreveal (by intro id; simp)
  case case30 =>
    intro st a i chunkCount p rest cc de h
    have h' : (getDisplayEnd st a.id).1 < chunkCount + 1 := h
    simp only [drawChunks, if_pos h']
    exact RevealEq.placeholder st a.id (env.doubleClick a.id)
  case case31 =>
    intro st a i chunkCount p rest cc de h chunk res₁ ih₁ ih₂ ih₃
    have h' : ¬ (getDisplayEnd st a.id).1 < chunkCount + 1 := h
    unfold res₁ chunk de cc at ih₃
    simp only [drawChunks, if_neg h']
    apply RevealEq.cons_nonreveal (by intro id; simp [Row.isRevealOf])
    by_cases hc : env.chunkOpen a.id i = true
    · simp only [hc, dite_true, ite_true] at ih₃ ⊢
      exact RevealEq.append (RevealEq.append (RevealEq.getDE st a.id) ih₂) ih₃
    · simp only [hc, Bool.false_eq_true, dite_false, ite_false] at ih₃ ⊢
      exact RevealEq.append (RevealEq.getDE st a.id) ih₃
  case case32 =>
    intro st
    simp only [drawMembers]
    exact RevealEq.of_nonreveal (by intro id; simp)
  case case33 =>
    intro st p rest res₁ ih₁ ih₂
    simp only [drawMembers]
    exact RevealEq.append ih₁ ih₂

/-- Locality relation: a piece of drawing that turned `st` into `st'`
emitting `rows` neither emitted a row belonging to node `id` nor changed
(or created) the `m_displayEnd` entry of `id`. -/
def UntouchedBy (id : Nat) (st st' : DrawerState) (rows : List Row) : Prop :=
  (∀ r ∈ rows, r.nodeId ≠ id) ∧ dLookup st' id = dLookup st id

theorem UntouchedBy.empty (id : Nat) (st : DrawerState) : UntouchedBy id st st [] :=
  ⟨by simp, rfl⟩

theorem untouchedBy_append {id : Nat} {st st₁ st₂ : DrawerState} {r₁ r₂ : List Row}
    (h₁ : UntouchedBy id st st₁ r₁) (h₂ : UntouchedBy id st₁ st₂ r₂) :
    UntouchedBy id st st₂ (r₁ ++ r₂) := by
  refine ⟨?_, h₂.2.trans h₁.2⟩
  intro r hr
  rcases List.mem_append.mp hr with h | h
  · exact h₁.1 r h
  · exact h₂.1 r h

theorem UntouchedBy.cons {id : Nat} {st st' : DrawerState} {rows : List Row} {r : Row}
    (hr : r.nodeId ≠ id) (h : UntouchedBy id st st' rows) :
    UntouchedBy id st st' (r :: rows) := by
  refine ⟨?_, h.2⟩
  intro x hx
  rcases List.mem_cons.mp hx with h' | h'
  · subst h'; exact hr
  · exact h.1 x h'

theorem UntouchedBy.single {id : Nat} {st : DrawerState} {r : Row} (hr : r.nodeId ≠ id) :
    UntouchedBy id st st [r] :=
  UntouchedBy.cons hr (UntouchedBy.empty id st)

theorem untouchedBy_getDE {id j : Nat} (st : DrawerState) (hj : j ≠ id) :
    UntouchedBy id st (getDisplayEnd st j).2 [] :=
  ⟨by simp, dLookup_getDisplayEnd_ne st j id hj⟩

theorem untouchedBy_placeholder {id aid : Nat} (st : DrawerState) (clicked : Bool)
    (hj : aid ≠ id) :
    UntouchedBy id st
      (if clicked then
        dSet (getDisplayEnd st aid).2 aid ((getDisplayEnd st aid).1 + DisplayEndStep)
      else (getDisplayEnd st aid).2)
      [Row.placeholderRow aid clicked] := by
  refine ⟨?_, ?_⟩
  · intro r hr
    rcases List.mem_cons.mp hr with h | h
    · subst h; exact hj
    · simp at h
  · by_cases hc : clicked
    · rw [if_pos hc, dLookup_dSet_ne _ aid id _ hj, dLookup_getDisplayEnd_ne st aid id hj]
    · rw [if_neg hc, dLookup_getDisplayEnd_ne st aid id hj]

theorem mem_idsList_take {j : Nat} (n : Nat) (l : List Pattern)
    (h : j ∈ idsList (l.take n)) : j ∈ idsList l := by
  induction l generalizing n with
  | nil => cases n <;> simpa [List.take] using h
  | cons p ps ih =>
    cases n with
    | zero => simp [List.take, idsList] at h
    | succ m =>
      simp only [List.take, idsList, List.mem_append] at h ⊢
      rcases h with h | h
      · exact Or.inl h
      · exact Or.inr (ih m h)

theorem mem_idsList_drop {j : Nat} (n : Nat) (l : List Pattern)
    (h : j ∈ idsList (l.drop n)) : j ∈ idsList l := by
  induction l generalizing n with
  | nil => cases n <;> simpa [List.drop] using h
  | cons p ps ih =>
    cases n with
    | zero => exact h
    | succ m =>
      simp only [List.drop] at h
      simp only [idsList, List.mem_append]
      exact Or.inr (ih m h)

theorem drawMembers_untouched (env : Env) (id : Nat) :
    ∀ st ps, id ∉ idsList ps →
      UntouchedBy id st (drawMembers env st ps).2 (drawMembers env st ps).1 := by
  apply PatternDrawer.drawMembers.induct env
    (fun st p => id ∉ p.ids →
      UntouchedBy id st (draw env st p).2 (draw env st p).1)
    (fun st p => id ∉ p.ids →
      UntouchedBy id st (visit env st p).2 (visit env st p).1)
    (fun st a es inl => id ≠ a.id → id ∉ idsList es →
      UntouchedBy id st (drawArray env st a es inl).2 (drawArray env st a es inl).1)
    (fun st a rem i cc => id ≠ a.id → id ∉ idsList rem →
      UntouchedBy id st (drawChunks env st a rem i cc).2 (drawChunks env st a rem i cc).1)
    (fun st ps => id ∉ idsList ps →
      UntouchedBy id st (drawMembers env st ps).2 (drawMembers env st ps).1)
  case case1 =>
    intro st p h hin
    simp only [draw, h, if_true]
    exact UntouchedBy.empty id st
  case case2 =>
    intro st p h ih hin
    simpa only [draw, h, Bool.false_eq_true, ite_false] using ih hin
  case case3 =>
    intro st k a hin
    simp only [Pattern.ids, List.mem_singleton] at hin
    simp only [visit]
    exact UntouchedBy.single (by simpa [createDefaultEntry, Row.nodeId] using Ne.symm hin)
  case case4 =>
    intro st a hin
    simp only [Pattern.ids, List.mem_singleton] at hin
    simp only [visit]
    exact UntouchedBy.single (by simpa [Row.nodeId] using Ne.symm hin)
  case case5 =>
    intro st a hin
    simp only [visit]
    exact UntouchedBy.empty id st
  case case6 =>
    intro st a h hin
    simp only [Pattern.ids, List.mem_singleton] at hin
    simp only [visit, if_pos h]
    exact UntouchedBy.single (by simpa [createDefaultEntry, Row.nodeId] using Ne.symm hin)
  case case7 =>
    intro st a h hin
    simp only [visit, if_neg h]
    exact UntouchedBy.empty id st
  case case8 =>
    intro st a h hin
    simp only [Pattern.ids, List.mem_singleton] at hin
    simp only [visit, if_pos h]
    exact UntouchedBy.single (by simpa [createDefaultEntry, Row.nodeId] using Ne.symm hin)
  case case9 =>
    intro st a h hin
    simp only [visit, if_neg h]
    exact UntouchedBy.empty id st
  case case10 =>
    intro st a b₁ b₂ hin
    simp only [Pattern.ids, List.mem_singleton] at hin
    simp only [visit]
    exact UntouchedBy.single (by simpa [Row.nodeId] using Ne.symm hin)
  case case11 =>
    intro st a fields h ih hin
    simp only [Pattern.ids, List.mem_cons, not_or] at hin
    simpa only [visit, h, if_true] using ih hin.2
  case case12 =>
    intro st a fields h₁ h₂ ih hin
    simp only [Pattern.ids, List.mem_cons, not_or] at hin
    simp only [visit, h₁, h₂, Bool.false_eq_true, ite_false, ite_true]
    exact UntouchedBy.cons (by simpa [Row.nodeId] using Ne.symm hin.1) (ih hin.2)
  case case13 =>
    intro st a fields h₁ h₂ hin
    simp only [Pattern.ids, List.mem_cons, not_or] at hin
    simp only [visit, h₁, h₂, Bool.false_eq_true, ite_false]
    exact UntouchedBy.single (by simpa [Row.nodeId] using Ne.symm hin.1)
  case case14 =>
    intro st a ms h ih hin
    simp only [Pattern.ids, List.mem_cons, not_or] at hin
    simpa only [visit, h, if_true] using ih hin.2
  case case15 =>
    intro st a ms h₁ h₂ ih hin
    simp only [Pattern.ids, List.mem_cons, not_or] at hin
    simp only [visit, h₁, h₂, Bool.false_eq_true, ite_false, ite_true]
    exact UntouchedBy.cons (by simpa [Row.nodeId] using Ne.symm hin.1) (ih hin.2)
  case case16 =>
    intro st a ms h₁ h₂ hin
    simp only [Pattern.ids, List.mem_cons, not_or] at hin
    simp only [visit, h₁, h₂, Bool.false_eq_true, ite_false]
    exact UntouchedBy.single (by simpa [Row.nodeId] using Ne.symm hin.1)
  case case17 =>
    intro st a ms h ih hin
    simp only [Pattern.ids, List.mem_cons, not_or] at hin
    simpa only [visit, h, if_true] using ih hin.2
  case case18 =>
    intro st a ms h₁ h₂ ih hin
    simp only [Pattern.ids, List.mem_cons, not_or] at hin
    simp only [visit, h₁, h₂, Bool.false_eq_true, ite_false, ite_true]
    exact UntouchedBy.cons (by simpa [Row.nodeId] using Ne.symm hin.1) (ih hin.2)
  case case19 =>
    intro st a ms h₁ h₂ hin
    simp only [Pattern.ids, List.mem_cons, not_or] at hin
    simp only [visit, h₁, h₂, Bool.false_eq_true, ite_false]
    exact UntouchedBy.single (by simpa [Row.nodeId] using Ne.symm hin.1)
  case case20 =>
    intro st a es ih hin
    simp only [Pattern.ids, List.mem_cons, not_or] at hin
    simpa only [visit] using ih hin.1 hin.2
  case case21 =>
    intro st a es ih hin
    simp only [Pattern.ids, List.mem_cons, not_or] at hin
    simpa only [visit] using ih hin.1 hin.2
  case case22 =>
    intro st a q h ih hin
    simp only [Pattern.ids, List.mem_cons, not_or] at hin
    simpa only [visit, h, if_true] using ih hin.2
  case case23 =>
    intro st a q h₁ h₂ ih hin
    simp only [Pattern.ids, List.mem_cons, not_or] at hin
    simp only [visit, h₁, h₂, Bool.false_eq_true, ite_false, ite_true]
    exact UntouchedBy.cons (by simpa [Row.nodeId] using Ne.symm hin.1) (ih hin.2)
  case case24 =>
    intro st a q h₁ h₂ hin
    simp only [Pattern.ids, List.mem_cons, not_or] at hin
    simp only [visit, h₁, h₂, Bool.false_eq_true, ite_false]
    exact UntouchedBy.single (by simpa [Row.nodeId] using Ne.symm hin.1)
  case case25 =>
    intro st a es inl h h₁ h₂
    simp only [drawArray, h, if_true]
    exact UntouchedBy.empty id st
  case case26 =>
    intro st a es h ih h₁ h₂
    simpa only [drawArray, h, Bool.false_eq_true, ite_false, ite_true] using ih h₁ h₂
  case case27 =>
    intro st a es inl h hinl hopen ih h₁ h₂
    simp only [drawArray, h, hinl, hopen, Bool.false_eq_true, ite_false, ite_true]
    exact UntouchedBy.cons (by simpa [Row.nodeId] using Ne.symm h₁) (ih h₁ h₂)
  case case28 =>
    intro st a es inl h hinl hopen h₁ h₂
    simp only [drawArray, h, hinl, hopen, Bool.false_eq_true, ite_false]
    exact UntouchedBy.single (by simpa [Row.nodeId] using Ne.symm h₁)
  case case29 =>
    intro st a i cc h₁ h₂
    simp only [drawChunks]
    exact UntouchedBy.empty id st
  case case30 =>
    intro st a i chunkCount p rest cc de h h₁ h₂
    have h' : (getDisplayEnd st a.id).1 < chunkCount + 1 := h
    simp only [drawChunks, if_pos h']
    exact untouchedBy_placeholder st (env.doubleClick a.id) (Ne.symm h₁)
  case case31 =>
    intro st a i chunkCount p rest cc de h chunk res₁ ih₁ ih₂ ih₃ h₁ h₂
    have h' : ¬ (getDisplayEnd st a.id).1 < chunkCount + 1 := h
    unfold res₁ chunk de cc at ih₃
    have hTake : id ∉ idsList (List.take ChunkSize (p :: rest)) :=
      fun hm => h₂ (mem_idsList_take ChunkSize (p :: rest) hm)
    have hDrop : id ∉ idsList (List.drop ChunkSize (p :: rest)) :=
      fun hm => h₂ (mem_idsList_drop ChunkSize (p :: rest) hm)
    simp only [drawChunks, if_neg h']
    apply UntouchedBy.cons (by simpa [Row.nodeId] using Ne.symm h₁)
    by_cases hc : env.chunkOpen a.id i = true
    · simp only [hc, dite_true, ite_true] at ih₃ ⊢
      exact untouchedBy_append
        (untouchedBy_append (untouchedBy_getDE st (Ne.symm h₁)) (ih₂ hTake))
        (ih₃ h₁ hDrop)
    · simp only [hc, Bool.false_eq_true, dite_false, ite_false] at ih₃ ⊢
      exact untouchedBy_append (untouchedBy_getDE st (Ne.symm h₁)) (ih₃ h₁ hDrop)
  case case32 =>
    intro st hin
    simp only [drawMembers]
    exact UntouchedBy.empty id st
  case case33 =>
    intro st p rest res₁ ih₁ ih₂ hin
    simp only [idsList, List.mem_append, not_or] at hin
    simp only [drawMembers]
    exact untouchedBy_append (ih₁ hin.1) (ih₂ hin.2)

/-- Number of pagination chunks of a collection with `n` entries:
the chunk loop runs once per started block of `ChunkSize` entries. -/
def numChunks (n : Nat) : Nat := (n + (ChunkSize - 1)) / ChunkSize

theorem nodeId_of_isChunkOf {id : Nat} {r : Row} (h : Row.isChunkOf id r = true) :
    r.nodeId = id := by
  cases r <;> simp_all [Row.isChunkOf, Row.nodeId]

theorem nodeId_of_isPlaceholderOf {id : Nat} {r : Row} (h : Row.isPlaceholderOf id r = true) :
    r.nodeId = id := by
  cases r <;> simp_all [Row.isPlaceholderOf, Row.nodeId]

theorem countP_chunk_zero {id : Nat} {rows : List Row} (h : ∀ r ∈ rows, r.nodeId ≠ id) :
    rows.countP (Row.isChunkOf id) = 0 :=
  List.countP_eq_zero.mpr (fun r hr hc => h r hr (nodeId_of_isChunkOf hc))

theorem countP_placeholder_zero {id : Nat} {rows : List Row} (h : ∀ r ∈ rows, r.nodeId ≠ id) :
    rows.countP (Row.isPlaceholderOf id) = 0 :=
  List.countP_eq_zero.mpr (fun r hr hc => h r hr (nodeId_of_isPlaceholderOf hc))

/-- Behaviour of the chunk loop of `drawArray` for a node whose current
revealed-chunk count is `d` and whose identity does not reoccur among
the remaining entries: it emits `min (numChunks remaining.length) (d - chunkCount)`
chunk-summary rows; it emits the placeholder exactly when chunks remain
beyond the budget, and then the placeholder is the final row of the
call; and every chunk-summary row starts strictly before the budget
runs out. -/
theorem drawChunks_spec (env : Env) (a : Attrs) (d : Nat) :
    ∀ (n : Nat) (remaining : List Pattern) (st : DrawerState) (i cc : Nat),
      remaining.length ≤ n →
      lookupD st a.id = d →
      a.id ∉ idsList remaining →
      ((drawChunks env st a remaining i cc).1.countP (Row.isChunkOf a.id)
          = min (numChunks remaining.length) (d - cc)) ∧
      ((drawChunks env st a remaining i cc).1.countP (Row.isPlaceholderOf a.id)
          = if d - cc < numChunks remaining.length then 1 else 0) ∧
      (d - cc < numChunks remaining.length →
        (drawChunks env st a remaining i cc).1.getLast?
          = some (Row.placeholderRow a.id (env.doubleClick a.id))) ∧
      (∀ f l, Row.chunkRow a.id f l ∈ (drawChunks env st a remaining i cc).1 →
        f < i + (d - cc) * ChunkSize) := by
  have hcs : ChunkSize = 50 := rfl
  intro n
  induction n with
  | zero =>
    intro remaining st i cc hlen hst hin
    have hnil : remaining = [] := List.eq_nil_of_length_eq_zero (Nat.le_zero.mp hlen)
    subst hnil
    simp [drawChunks, numChunks, ChunkSize]
  | succ m ih =>
    intro remaining st i cc hlen hst hin
    cases remaining with
    | nil => simp [drawChunks, numChunks, ChunkSize]
    | cons p rest =>
      have hTake : a.id ∉ idsList ((p :: rest).take ChunkSize) :=
        fun hm => hin (mem_idsList_take ChunkSize (p :: rest) hm)
      have hDrop : a.id ∉ idsList ((p :: rest).drop ChunkSize) :=
        fun hm => hin (mem_idsList_drop ChunkSize (p :: rest) hm)
      have hde : (getDisplayEnd st a.id).1 = d := by rw [getDisplayEnd_fst, hst]
      have hpos : 0 < numChunks (p :: rest).length := by
        simp only [numChunks, hcs, List.length_cons]
        omega
      by_cases hpl : d < cc + 1
      · -- budget exhausted: the placeholder row is emitted and iteration stops
        have hcond : (getDisplayEnd st a.id).1 < cc + 1 := by rw [hde]; exact hpl
        have hdc : d - cc = 0 := by omega
        simp only [drawChunks, if_pos hcond]
        refine ⟨?_, ?_, ?_, ?_⟩
        · simp [Row.isChunkOf, hdc]
        · simp only [hdc, if_pos hpos]
          simp [Row.isPlaceholderOf]
        · intro _
          rfl
        · intro f l hmem
          simp at hmem
      · -- a chunk-summary row, then the rest of the loop
        have hcond : ¬ (getDisplayEnd st a.id).1 < cc + 1 := by rw [hde]; exact hpl
        have hlen' : ((p :: rest).drop ChunkSize).length ≤ m := by
          simp only [List.length_drop, List.length_cons, hcs]
          simp only [List.length_cons] at hlen
          omega
        have hA : numChunks (p :: rest).length
            = numChunks (((p :: rest).drop ChunkSize).length) + 1 := by
          simp only [numChunks, hcs, List.length_drop, List.length_cons]
          omega
        simp only [drawChunks, if_neg hcond]
        by_cases hc : env.chunkOpen a.id i = true
        · simp only [hc, ite_true]
          have hU := drawMembers_untouched env a.id (getDisplayEnd st a.id).2
            ((p :: rest).take ChunkSize) hTake
          have hlook : lookupD
              (drawMembers env (getDisplayEnd st a.id).2 ((p :: rest).take ChunkSize)).2 a.id
              = d := by
            rw [lookupD, hU.2, dLookup_getDisplayEnd, Option.getD_some, hst]
          obtain ⟨r1, r2, r3, r4⟩ :=
            ih ((p :: rest).drop ChunkSize) _ (i + ChunkSize) (cc + 1) hlen' hlook hDrop
          refine ⟨?_, ?_, ?_, ?_⟩
          · rw [List.countP_cons, List.countP_append, countP_chunk_zero hU.1, r1, hA]
            simp [Row.isChunkOf]
            omega
          · rw [List.countP_cons, List.countP_append, countP_placeholder_zero hU.1, r2, hA]
            simp [Row.isPlaceholderOf]
            split_ifs <;> omega
          · intro hlt
            rw [hA] at hlt
            have hg := r3 (by omega)
            rw [List.getLast?_cons, List.getLast?_append, hg]
            rfl
          · intro f l hmem
            rcases List.mem_cons.mp hmem with he | hm
            · cases he
              rw [hcs]
              omega
            · rcases List.mem_append.mp hm with h1 | h2
              · exact absurd rfl (hU.1 _ h1)
              · have := r4 f l h2
                rw [hcs] at this ⊢
                omega
        · simp only [hc, Bool.false_eq_true, ite_false]
          have hlook : lookupD (getDisplayEnd st a.id).2 a.id = d := by
            rw [lookupD_getDisplayEnd, hst]
          obtain ⟨r1, r2, r3, r4⟩ :=
            ih ((p :: rest).drop ChunkSize) _ (i + ChunkSize) (cc + 1) hlen' hlook hDrop
          refine ⟨?_, ?_, ?_, ?_⟩
          · rw [List.countP_cons, List.nil_append, r1, hA]
            simp [Row.isChunkOf]
            omega
          · rw [List.countP_cons, List.nil_append, r2, hA]
            simp [Row.isPlaceholderOf]
            split_ifs <;> omega
          · intro hlt
            rw [hA] at hlt
            have hg := r3 (by omega)
            rw [List.nil_append, List.getLast?_cons, hg]
            rfl
          · intro f l hmem
            rcases List.mem_cons.mp hmem with he | hm
            · cases he
              rw [hcs]
              omega
            · rw [List.nil_append] at hm
              have := r4 f l hm
              rw [hcs] at this ⊢
              omega

/-- Insertion step of the deterministic comparison sort used to model
`std::sort` (which may produce any order consistent with the strict weak
order; for the distinct keys exercised here the result is unique). -/
def insertBy {α : Type} (lt : α → α → Bool) (x : α) : List α → List α
  | [] => [x]
  | y :: ys => if lt x y then x :: y :: ys else y :: insertBy lt x ys

/-- Comparison sort on a Bool comparator, modelling `std::sort`. -/
def sortBy {α : Type} (lt : α → α → Bool) : List α → List α
  | [] => []
  | x :: xs => insertBy lt x (sortBy lt xs)

theorem insertBy_length {α : Type} (lt : α → α → Bool) (x : α) (l : List α) :
    (insertBy lt x l).length = l.length + 1 := by
  induction l with
  | nil => rfl
  | cons y ys ih =>
    by_cases h : lt x y = true <;> simp [insertBy, h, ih]

theorem sortBy_length {α : Type} (lt : α → α → Bool) (l : List α) :
    (sortBy lt l).length = l.length := by
  induction l with
  | nil => rfl
  | cons x xs ih => simp [sortBy, insertBy_length, ih]

/-- The six sortable table columns (`ImGui::GetID("name")` ... in
`beginPatternTable`), plus the fall-through case for an identifier that
matches none of them. -/
inductive SortColumn where
  | name
  | color
  | offset
  | size
  | type
  | value
  | unknown
deriving DecidableEq, Repr

/-- The sort direction delivered by the table's sort specs. -/
inductive SortDirection where
  | ascending
  | descending
deriving DecidableEq, Repr

/-- `ImGuiTableSortSpecs`: active column, direction and the dirty flag. -/
structure SortSpecs where
  column : SortColumn
  direction : SortDirection
  specsDirty : Bool
deriving DecidableEq, Repr

/-- C++ `sortPatterns` (lines 475-509): keyed on the column id; for each
key the `Ascending` direction compares with `left > right` and the
descending direction with `left < right`; an unmatched column id falls
through to `false`. -/
def sortPatterns (sortSpecs : SortSpecs) (left right : Pattern) : Bool :=
  match sortSpecs.column with
  | .name =>
    match sortSpecs.direction with
    | .ascending => decide (right.attrs.displayName < left.attrs.displayName)
    | .descending => decide (left.attrs.displayName < right.attrs.displayName)
  | .offset =>
    match sortSpecs.direction with
    | .ascending => decide (right.attrs.offset < left.attrs.offset)
    | .descending => decide (left.attrs.offset < right.attrs.offset)
  | .size =>
    match sortSpecs.direction with
    | .ascending => decide (right.attrs.size < left.attrs.size)
    | .descending => decide (left.attrs.size < right.attrs.size)
  | .value =>
    match sortSpecs.direction with
    | .ascending => decide (right.attrs.value < left.attrs.value)
    | .descending => decide (left.attrs.value < right.attrs.value)
  | .type =>
    match sortSpecs.direction with
    | .ascending => decide (right.attrs.typeName < left.attrs.typeName)
    | .descending => decide (left.attrs.typeName < right.attrs.typeName)
  | .color =>
    match sortSpecs.direction with
    | .ascending => decide (right.attrs.color < left.attrs.color)
    | .descending => decide (left.attrs.color < right.attrs.color)
  | .unknown => false

mutual

/-- Modelled from the spec: `pattern->sort(comparator)` belongs to the
pattern-language library, which is not among this repository's sources.
Per the spec (§4.4) the comparator is pushed down recursively into every
struct/union/array-shaped node, re-sorting each one's own children with
the same comparator. -/
def sortChildren (cmp : Pattern → Pattern → Bool) : Pattern → Pattern
  | .struct a ms => .struct a (sortBy cmp (sortChildrenList cmp ms))
  | .union a ms => .union a (sortBy cmp (sortChildrenList cmp ms))
  | .arrayDynamic a es => .arrayDynamic a (sortBy cmp (sortChildrenList cmp es))
  | .arrayStatic a es => .arrayStatic a (sortBy cmp (sortChildrenList cmp es))
  | p => p

/-- Child-list traversal of `sortChildren`. -/
def sortChildrenList (cmp : Pattern → Pattern → Bool) : List Pattern → List Pattern
  | [] => []
  | p :: ps => sortChildren cmp p :: sortChildrenList cmp ps

end

theorem sortChildren_attrs (cmp : Pattern → Pattern → Bool) (p : Pattern) :
    (sortChildren cmp p).attrs = p.attrs := by
  cases p <;> simp [sortChildren, Pattern.attrs]

/-- C++ `beginPatternTable` (lines 511-548): clear the cache if the root
list is empty; recompute it — `std::sort` over the raw pointers, then
the recursive child re-sort, then clear the dirty flag — exactly when
the root list is non-empty and the sort specs are dirty or the cache is
empty.  Returns the new cache, the new sort specs, and whether the
recomputation branch (the only place the comparator is invoked) ran. -/
def beginPatternTable (patterns : List Pattern) (sortedPatterns : List Pattern)
    (sortSpecs : SortSpecs) : List Pattern × SortSpecs × Bool :=
  let sorted₀ := if patterns.isEmpty then [] else sortedPatterns
  if !patterns.isEmpty && (sortSpecs.specsDirty || sorted₀.isEmpty) then
    (List.map (sortChildren (sortPatterns sortSpecs)) (sortBy (sortPatterns sortSpecs) patterns),
      { sortSpecs with specsDirty := false }, true)
  else
    (sorted₀, sortSpecs, false)

/-- C++ `PatternDrawer::draw(patterns, height)` (lines 550-560): begin
the table (establishing the sorted cache) and draw every cached root
through the per-node entry point. -/
def drawTop (env : Env) (st : DrawerState) (sortedPatterns : List Pattern)
    (sortSpecs : SortSpecs) (patterns : List Pattern) :
    List Row × DrawerState × List Pattern × SortSpecs :=
  let bt := beginPatternTable patterns sortedPatterns sortSpecs
  let res := drawMembers env st bt.1
  (res.1, res.2, bt.1, bt.2.1)

/-- A sequence of top-level draw calls against one drawer instance: each
frame supplies the interactive environment and the root list the
per-frame loop iterates over (per `drawTop`, one frame's body is
`drawMembers` over its root list), threading `m_displayEnd` through. -/
def runFrames : List (Env × List Pattern) → DrawerState → List Row × DrawerState
  | [], st => ([], st)
  | f :: frames, st =>
    let res := drawMembers f.1 st f.2
    let rest := runFrames frames res.2
    (res.1 ++ rest.1, rest.2)

theorem runFrames_revealEq (frames : List (Env × List Pattern)) :
    ∀ st, RevealEq st (runFrames frames st).2 (runFrames frames st).1 := by
  induction frames with
  | nil =>
    intro st id
    simp [runFrames]
  | cons f fs ih =>
    intro st
    simp only [runFrames]
    exact RevealEq.append (drawMembers_revealEq f.1 st f.2) (ih _)

/-- A minimal attribute record for concrete fixtures. -/
def mkAttrs (id offset size : Nat) (hidden sealed inlined : Bool) : Attrs :=
  { id := id, offset := offset, size := size, displayName := "", typeName := "",
    value := 0, color := 0, hidden := hidden, sealed := sealed, inlined := inlined }

/-- An environment with every tree node open, every chunk collapsed, no
double-click in flight and no hex-editor selection. -/
def envOpen : Env :=
  { selection := none, treeOpen := fun _ => true, chunkOpen := fun _ _ => false,
    doubleClick := fun _ => false }

/-- C3: for every pattern node with `hidden = true`, the per-node draw
entry point emits zero rows and returns the state untouched — it never
dispatches into the node, so no descendant (hidden or not) is visited
and no descendant row can appear. -/
theorem C3_hidden_node_draws_nothing (env : Env) (st : DrawerState) (p : Pattern)
    (h : p.attrs.hidden = true) : draw env st p = ([], st) := by
  simp [draw, h]

/-- Witness for C3 at a hidden struct whose non-hidden scalar child
would otherwise produce a row. -/
theorem C3_hidden_node_draws_nothing_witness :
    (Pattern.struct (mkAttrs 0 0 4 true false false)
        [Pattern.scalar .unsignedInt (mkAttrs 1 0 4 false false false)]).attrs.hidden = true ∧
    draw envOpen []
        (Pattern.struct (mkAttrs 0 0 4 true false false)
          [Pattern.scalar .unsignedInt (mkAttrs 1 0 4 false false false)]) = ([], []) :=
  ⟨rfl, C3_hidden_node_draws_nothing envOpen [] _ rfl⟩

/-- C6: a string or wide-string node of size 0 emits no row at all; with
positive size it emits exactly one row, the shared default-entry
layout. -/
theorem C6_string_rows (env : Env) (st : DrawerState) (a : Attrs) :
    (a.size = 0 →
      visit env st (.string a) = ([], st) ∧ visit env st (.wideString a) = ([], st)) ∧
    (0 < a.size →
      visit env st (.string a) = ([createDefaultEntry env a], st) ∧
      visit env st (.wideString a) = ([createDefaultEntry env a], st)) := by
  constructor
  · intro h
    constructor <;> simp [visit, h]
  · intro h
    constructor <;> simp [visit, h]

/-- Witness for C6: identical string nodes of size 0 and size 1. -/
theorem C6_string_rows_witness :
    visit envOpen [] (.string (mkAttrs 2 0 0 false false false)) = ([], []) ∧
    visit envOpen [] (.string (mkAttrs 2 0 1 false false false))
      = ([createDefaultEntry envOpen (mkAttrs 2 0 1 false false false)], []) :=
  ⟨((C6_string_rows envOpen [] _).1 rfl).1,
   ((C6_string_rows envOpen [] _).2 (by decide)).1⟩

/-- C10: an array node (dynamic or static) whose entry collection is
empty draws no rows at all — not even a header row — regardless of its
inlined, sealed or selection state. -/
theorem C10_empty_array_draws_nothing (env : Env) (st : DrawerState) (a : Attrs) :
    visit env st (.arrayDynamic a []) = ([], st) ∧
    visit env st (.arrayStatic a []) = ([], st) := by
  constructor <;> simp [visit, drawArray]

/-- C9: a node is rendered selected iff a selection exists and the
node's half-open byte range `[offset, offset+size)` overlaps it; a node
of size 0 is never selected; a node spanning bytes 100..109 is selected
under the selection of bytes 105..107 and not under bytes 0..9. -/
theorem C9_selection_overlap (sel : Option Region) (off sz : Nat) :
    (isPatternSelected sel off sz = true ↔
      ∃ r, sel = some r ∧ max off r.address < min (off + sz) (r.address + r.size)) ∧
    isPatternSelected sel off 0 = false ∧
    isPatternSelected (some ⟨105, 3⟩) 100 10 = true ∧
    isPatternSelected (some ⟨0, 10⟩) 100 10 = false := by
  refine ⟨?_, ?_, by decide, by decide⟩
  · cases sel with
    | none => simp [isPatternSelected]
    | some r => simp [isPatternSelected, Region.overlaps]
  · cases sel with
    | none => rfl
    | some r =>
      simp only [isPatternSelected, Region.overlaps, decide_eq_false_iff_not]
      omega

/-- Counterexample to C7 as stated: the header row of a non-sealed,
non-inlined bitfield does carry a color swatch (the bitfield visit
calls `drawColorColumn` unconditionally, line 212), so "swatch present
iff sealed" fails for bitfields. -/
theorem C7_counterexample :
    (visit envOpen [] (Pattern.bitfield (mkAttrs 7 0 4 false false false) [])).1
      = [Row.headerRow 7 true] ∧
    (mkAttrs 7 0 4 false false false).sealed = false := by
  constructor
  · simp [visit, createTreeNode, envOpen, mkAttrs, drawMembers]
  · rfl

/-- C7 (amended): for non-inlined nodes, the header row of a struct,
union or array carries the color swatch exactly when the node is sealed
(the swatch flag of the header equals `sealed`), but a bitfield or
pointer header always carries the swatch, sealed or not. -/
theorem C7_header_swatch (env : Env) (st : DrawerState) (a : Attrs)
    (hinl : a.inlined = false) :
    (∀ ms, (visit env st (.struct a ms)).1.head? = some (Row.headerRow a.id a.sealed)) ∧
    (∀ ms, (visit env st (.union a ms)).1.head? = some (Row.headerRow a.id a.sealed)) ∧
    (∀ es, es ≠ [] →
      (visit env st (.arrayDynamic a es)).1.head? = some (Row.headerRow a.id a.sealed)) ∧
    (∀ es, es ≠ [] →
      (visit env st (.arrayStatic a es)).1.head? = some (Row.headerRow a.id a.sealed)) ∧
    (∀ fields, (visit env st (.bitfield a fields)).1.head? = some (Row.headerRow a.id true)) ∧
    (∀ q, (visit env st (.pointer a q)).1.head? = some (Row.headerRow a.id true)) := by
  refine ⟨?_, ?_, ?_, ?_, ?_, ?_⟩
  · intro ms
    by_cases hop : createTreeNode env a = true <;> simp [visit, hinl, hop]
  · intro ms
    by_cases hop : createTreeNode env a = true <;> simp [visit, hinl, hop]
  · intro es hne
    cases es with
    | nil => exact absurd rfl hne
    | cons e es' =>
      by_cases hop : createTreeNode env a = true <;> simp [visit, drawArray, hinl, hop]
  · intro es hne
    cases es with
    | nil => exact absurd rfl hne
    | cons e es' =>
      by_cases hop : createTreeNode env a = true <;> simp [visit, drawArray, hinl, hop]
  · intro fields
    by_cases hop : createTreeNode env a = true <;> simp [visit, hinl, hop]
  · intro q
    by_cases hop : createTreeNode env a = true <;> simp [visit, hinl, hop]

/-- Witness for C7 (amended): a non-sealed struct header gets no
swatch while a non-sealed bitfield header does. -/
theorem C7_header_swatch_witness :
    (visit envOpen [] (Pattern.struct (mkAttrs 9 0 4 false false false) [])).1.head?
      = some (Row.headerRow 9 false) ∧
    (visit envOpen [] (Pattern.bitfield (mkAttrs 9 0 4 false false false) [])).1.head?
      = some (Row.headerRow 9 true) := by
  have h := C7_header_swatch envOpen [] (mkAttrs 9 0 4 false false false) rfl
  exact ⟨h.1 [], h.2.2.2.2.1 []⟩

/-- Counterexample to C8 as stated: a hidden pointee of an open pointer
still contributes its row — line 281 recurses through `accept`, which
skips `draw`'s hidden check. -/
theorem C8_counterexample :
    (Pattern.scalar .unsignedInt (mkAttrs 4 0 4 true false false)).attrs.hidden = true ∧
    (visit envOpen [] (Pattern.pointer (mkAttrs 3 0 8 false false false)
        (Pattern.scalar .unsignedInt (mkAttrs 4 0 4 true false false)))).1
      = [Row.headerRow 3 true, Row.defaultEntry 4 false] := by
  constructor
  · rfl
  · simp [visit, createTreeNode, envOpen, mkAttrs, createDefaultEntry, isPatternSelected]

/-- C8 (amended): an open pointer recurses into exactly its single
pointee, but through the visitor dispatch (`accept`) directly rather
than through the hidden-checking entry point `draw`; the pointee's rows
are therefore emitted even when the pointee is flagged hidden. -/
theorem C8_pointer_recursion (env : Env) (st : DrawerState) (a : Attrs) (q : Pattern) :
    (a.inlined = true → visit env st (.pointer a q) = visit env st q) ∧
    (a.inlined = false → createTreeNode env a = true →
      visit env st (.pointer a q)
        = (Row.headerRow a.id true :: (visit env st q).1, (visit env st q).2)) ∧
    (a.inlined = false → createTreeNode env a = false →
      visit env st (.pointer a q) = ([Row.headerRow a.id true], st)) :=
  ⟨fun h => by simp [visit, h],
   fun h₁ h₂ => by simp [visit, h₁, h₂],
   fun h₁ h₂ => by simp [visit, h₁, h₂]⟩

/-- Witness for C8 (amended) at an open pointer with a hidden scalar
pointee. -/
theorem C8_pointer_recursion_witness :
    visit envOpen [] (Pattern.pointer (mkAttrs 3 0 8 false false false)
        (Pattern.scalar .unsignedInt (mkAttrs 4 0 4 true false false)))
      = (Row.headerRow 3 true ::
          (visit envOpen [] (Pattern.scalar .unsignedInt (mkAttrs 4 0 4 true false false))).1,
         (visit envOpen [] (Pattern.scalar .unsignedInt (mkAttrs 4 0 4 true false false))).2) :=
  (C8_pointer_recursion envOpen [] _ _).2.1 rfl (by decide)

/-- Fixture: sibling scalar at offset 10. -/
def pat10 : Pattern := Pattern.scalar .unsignedInt (mkAttrs 11 10 4 false false false)

/-- Fixture: sibling scalar at offset 5. -/
def pat5 : Pattern := Pattern.scalar .unsignedInt (mkAttrs 12 5 4 false false false)

/-- Fixture: sibling scalar at offset 20. -/
def pat20 : Pattern := Pattern.scalar .unsignedInt (mkAttrs 13 20 4 false false false)

/-- C1: with an active sort-by-offset spec in the "ascending" direction
the comparator returns true exactly when the left offset is numerically
greater than the right offset, and sorting the sibling scalars at
offsets 10, 5, 20 by offset "ascending" puts them in display order
20, 10, 5. -/
theorem C1_offset_ascending_inverted :
    (∀ (dirty : Bool) (l r : Pattern),
      sortPatterns ⟨SortColumn.offset, SortDirection.ascending, dirty⟩ l r
        = decide (r.attrs.offset < l.attrs.offset)) ∧
    ((beginPatternTable [pat10, pat5, pat20] []
        ⟨SortColumn.offset, SortDirection.ascending, true⟩).1.map
          (fun p => p.attrs.offset) = [20, 10, 5]) := by
  constructor
  · intro dirty l r
    rfl
  · show (List.map (sortChildren (sortPatterns ⟨SortColumn.offset, SortDirection.ascending, true⟩))
        (sortBy (sortPatterns ⟨SortColumn.offset, SortDirection.ascending, true⟩)
          [pat10, pat5, pat20])).map (fun p => p.attrs.offset) = [20, 10, 5]
    rw [List.map_map]
    rw [List.map_congr_left
      (fun p _ => by simp only [Function.comp_apply, sortChildren_attrs] :
        ∀ p ∈ sortBy (sortPatterns ⟨SortColumn.offset, SortDirection.ascending, true⟩)
          [pat10, pat5, pat20],
          ((fun q : Pattern => q.attrs.offset) ∘
            sortChildren (sortPatterns ⟨SortColumn.offset, SortDirection.ascending, true⟩)) p
            = p.attrs.offset)]
    decide

/-- C5: a second top-level table call with the same non-empty root list
and the (now) clean sort spec reuses the cache verbatim and does not
enter the comparator-invoking recompute branch; that branch runs
exactly when the root list is non-empty and the spec is dirty or the
cache is empty. -/
theorem C5_sort_cache_reuse :
    (∀ (patterns sorted : List Pattern) (specs : SortSpecs), patterns ≠ [] →
      beginPatternTable patterns
          (beginPatternTable patterns sorted specs).1
          (beginPatternTable patterns sorted specs).2.1
        = ((beginPatternTable patterns sorted specs).1,
           (beginPatternTable patterns sorted specs).2.1, false)) ∧
    (∀ (patterns sorted : List Pattern) (specs : SortSpecs),
      (beginPatternTable patterns sorted specs).2.2 = true
        ↔ (patterns ≠ [] ∧ (specs.specsDirty = true ∨ sorted = []))) := by
  constructor
  · intro ps ss sp hp
    have hpe : ps.isEmpty = false := by simp [List.isEmpty_iff, hp]
    have hcache : ∀ (ss' : List Pattern) (sp' : SortSpecs), ss' ≠ [] →
        sp'.specsDirty = false → beginPatternTable ps ss' sp' = (ss', sp', false) := by
      intro ss' sp' h1 h2
      have hse : ss'.isEmpty = false := by simp [List.isEmpty_iff, h1]
      simp [beginPatternTable, hpe, hse, h2]
    by_cases hfirst : (sp.specsDirty || ss.isEmpty) = true
    · have hB : beginPatternTable ps ss sp
          = (List.map (sortChildren (sortPatterns sp)) (sortBy (sortPatterns sp) ps),
             { sp with specsDirty := false }, true) := by
        simp only [beginPatternTable, hpe]
        rw [if_pos]
        simp [hpe, hfirst]
      rw [hB]
      apply hcache
      · intro hnil
        have := congrArg List.length hnil
        simp [sortBy_length] at this
        exact hp this
      · rfl
    · have hd : sp.specsDirty = false := by
        cases h : sp.specsDirty
        · rfl
        · rw [h] at hfirst; simp at hfirst
      have hse : ss.isEmpty = false := by
        cases h : ss.isEmpty
        · rfl
        · rw [h] at hfirst; simp at hfirst
      have hB : beginPatternTable ps ss sp = (ss, sp, false) := by
        simp [beginPatternTable, hpe, hse, hd]
      rw [hB]
      exact hcache ss sp (by simpa [List.isEmpty_iff] using hse) hd
  · intro ps ss sp
    by_cases hp : ps = []
    · subst hp
      simp [beginPatternTable]
    · have hpe : ps.isEmpty = false := by simp [List.isEmpty_iff, hp]
      cases hd : sp.specsDirty <;> cases hse : ss.isEmpty <;>
        simp_all [beginPatternTable, List.isEmpty_iff, hp]

/-- Witness for C5 at a one-element root list with a dirty spec. -/
theorem C5_sort_cache_reuse_witness :
    beginPatternTable [pat5]
        (beginPatternTable [pat5] [] ⟨SortColumn.offset, SortDirection.ascending, true⟩).1
        (beginPatternTable [pat5] [] ⟨SortColumn.offset, SortDirection.ascending, true⟩).2.1
      = ((beginPatternTable [pat5] [] ⟨SortColumn.offset, SortDirection.ascending, true⟩).1,
         (beginPatternTable [pat5] [] ⟨SortColumn.offset, SortDirection.ascending, true⟩).2.1,
         false) :=
  C5_sort_cache_reuse.1 [pat5] [] ⟨SortColumn.offset, SortDirection.ascending, true⟩
    (by simp)

/-- C2: drawing an open (non-hidden, expanded) array node with `N`
entries, chunk size 50, and revealed-chunk count `d` renders exactly
`min (ceil (N/50)) d` chunk-summary rows; exactly one placeholder row is
emitted — as the final row of the call — iff more chunks exist than the
budget allows, and no chunk-summary row at or beyond the `d`-th chunk is
ever emitted; static and dynamic arrays draw identically. -/
theorem C2_chunked_array (env : Env) (st : DrawerState) (a : Attrs)
    (entries : List Pattern) (d : Nat)
    (hhid : a.hidden = false)
    (hopen : a.inlined = true ∨ (a.sealed = false ∧ env.treeOpen a.id = true))
    (hd : lookupD st a.id = d)
    (hfresh : a.id ∉ idsList entries) :
    ((draw env st (.arrayDynamic a entries)).1.countP (Row.isChunkOf a.id)
        = min (numChunks entries.length) d) ∧
    ((draw env st (.arrayDynamic a entries)).1.countP (Row.isPlaceholderOf a.id)
        = if d < numChunks entries.length then 1 else 0) ∧
    (d < numChunks entries.length →
      (draw env st (.arrayDynamic a entries)).1.getLast?
        = some (Row.placeholderRow a.id (env.doubleClick a.id))) ∧
    (∀ f l, Row.chunkRow a.id f l ∈ (draw env st (.arrayDynamic a entries)).1 →
      f < d * ChunkSize) ∧
    draw env st (.arrayStatic a entries) = draw env st (.arrayDynamic a entries) := by
  have hstatic : draw env st (.arrayStatic a entries) = draw env st (.arrayDynamic a entries) := by
    simp [draw, visit, Pattern.attrs, hhid]
  have hdraw : draw env st (.arrayDynamic a entries) = visit env st (.arrayDynamic a entries) := by
    simp [draw, Pattern.attrs, hhid]
  obtain ⟨s1, s2, s3, s4⟩ :=
    drawChunks_spec env a d entries.length entries st 0 0 le_rfl hd hfresh
  by_cases hne : entries.isEmpty = true
  · have hnil : entries = [] := List.isEmpty_iff.mp hne
    subst hnil
    refine ⟨?_, ?_, ?_, ?_, hstatic⟩ <;>
      simp [hdraw, visit, drawArray, numChunks, ChunkSize]
  · by_cases hinl : a.inlined = true
    · have hvisit : visit env st (.arrayDynamic a entries) = drawChunks env st a entries 0 0 := by
        simp [visit, drawArray, hne, hinl]
      refine ⟨?_, ?_, ?_, ?_, hstatic⟩
      · rw [hdraw, hvisit]
        simpa using s1
      · rw [hdraw, hvisit]
        simpa using s2
      · intro hlt
        rw [hdraw, hvisit]
        exact s3 (by simpa using hlt)
      · intro f l hm
        rw [hdraw, hvisit] at hm
        simpa using s4 f l hm
    · have hso : a.sealed = false ∧ env.treeOpen a.id = true := hopen.resolve_left hinl
      have hct : createTreeNode env a = true := by simp [createTreeNode, hso.1, hso.2]
      have hinl' : a.inlined = false := by
        cases h : a.inlined
        · rfl
        · exact absurd h hinl
      have hvisit : visit env st (.arrayDynamic a entries)
          = (Row.headerRow a.id a.sealed :: (drawChunks env st a entries 0 0).1,
             (drawChunks env st a entries 0 0).2) := by
        simp [visit, drawArray, hne, hinl', hct]
      refine ⟨?_, ?_, ?_, ?_, hstatic⟩
      · rw [hdraw, hvisit]
        simpa [List.countP_cons, Row.isChunkOf] using s1
      · rw [hdraw, hvisit]
        simpa [List.countP_cons, Row.isPlaceholderOf] using s2
      · intro hlt
        rw [hdraw, hvisit]
        have hg := s3 (by simpa using hlt)
        rw [List.getLast?_cons, hg]
        rfl
      · intro f l hm
        rw [hdraw, hvisit] at hm
        rcases List.mem_cons.mp hm with he | hm'
        · exact absurd he (by simp)
        · simpa using s4 f l hm'

/-- Fixture: the shared scalar entry of the 120-entry array. -/
def entry120 : Pattern := Pattern.scalar .unsignedInt (mkAttrs 1 0 4 false false false)

/-- Fixture: attributes of the 120-entry array node. -/
def arr120 : Attrs := mkAttrs 0 0 480 false false false

theorem idsList_replicate (n : Nat) (p : Pattern) (j : Nat) (h : j ∉ p.ids) :
    j ∉ idsList (List.replicate n p) := by
  induction n with
  | zero => simp [idsList]
  | succ m ih =>
    simp only [List.replicate_succ, idsList, List.mem_append, not_or]
    exact ⟨h, ih⟩

/-- Witness for C2: 120 entries at disclosure 1 give one chunk-summary
row and a final placeholder; at disclosure 3 they give three
chunk-summary rows and no placeholder. -/
theorem C2_chunked_array_witness :
    ((draw envOpen [(0, 1)] (.arrayDynamic arr120 (List.replicate 120 entry120))).1.countP
        (Row.isChunkOf 0) = 1) ∧
    ((draw envOpen [(0, 1)] (.arrayDynamic arr120 (List.replicate 120 entry120))).1.countP
        (Row.isPlaceholderOf 0) = 1) ∧
    ((draw envOpen [(0, 1)] (.arrayDynamic arr120 (List.replicate 120 entry120))).1.getLast?
        = some (Row.placeholderRow 0 false)) ∧
    ((draw envOpen [(0, 3)] (.arrayDynamic arr120 (List.replicate 120 entry120))).1.countP
        (Row.isChunkOf 0) = 3) ∧
    ((draw envOpen [(0, 3)] (.arrayDynamic arr120 (List.replicate 120 entry120))).1.countP
        (Row.isPlaceholderOf 0) = 0) := by
  have hfresh : (0 : Nat) ∉ idsList (List.replicate 120 entry120) :=
    idsList_replicate 120 entry120 0 (by simp [entry120, Pattern.ids, mkAttrs])
  have hlen : (List.replicate 120 entry120).length = 120 := by simp
  have hn : numChunks 120 = 3 := rfl
  have h1 := C2_chunked_array envOpen [(0, 1)] arr120 (List.replicate 120 entry120) 1
    rfl (Or.inr ⟨rfl, rfl⟩) rfl hfresh
  have h3 := C2_chunked_array envOpen [(0, 3)] arr120 (List.replicate 120 entry120) 3
    rfl (Or.inr ⟨rfl, rfl⟩) rfl hfresh
  refine ⟨?_, ?_, ?_, ?_, ?_⟩
  · refine h1.1.trans ?_
    rw [hlen, hn]
    decide
  · have h := h1.2.1
    rw [hlen, hn, if_pos (by norm_num)] at h
    exact h
  · exact h1.2.2.1 (by rw [hlen, hn]; norm_num)
  · refine h3.1.trans ?_
    rw [hlen, hn]
    decide
  · have h := h3.2.1
    rw [hlen, hn, if_neg (by norm_num)] at h
    exact h

/-- C4: the disclosure count of a node is the default 50 on first
creation; across any sequence of draw calls of one drawer instance
started from a fresh state it equals `50 + 50 k` after `k` reveal-more
double-clicks landed on that node's placeholder; and it never decreases
across any sequence of calls from any state. -/
theorem C4_disclosure (frames : List (Env × List Pattern)) (st : DrawerState) (id : Nat) :
    (getDisplayEnd [] id).1 = DisplayEndDefault ∧
    lookupD (runFrames frames []).2 id
      = DisplayEndDefault
          + DisplayEndStep * ((runFrames frames []).1.countP (Row.isRevealOf id)) ∧
    lookupD st id ≤ lookupD (runFrames frames st).2 id := by
  refine ⟨rfl, ?_, ?_⟩
  · have h := runFrames_revealEq frames [] id
    rw [h]
    rfl
  · have h := runFrames_revealEq frames st id
    rw [h]
    exact Nat.le_add_right _ _

end PatternDrawer
